import Mathlib

/-!
Verification of `qubesstats/stats.py` (Qubes OS download statistics aggregator).

Shallow embedding conventions:

* Time-zone-aware `datetime` values are totally ordered points; we embed
  them as integers counting seconds.  A `datetime.timedelta(hours=h)` is the
  integer `h * 3600`.
* `ExitNodeAddress` (a `list` subclass of `(published, last_status)` pairs)
  becomes `List (Int × Int)`; Python's `list.sort()` on tuples is a stable
  merge sort under the lexicographic order.
* The module-level constant `EXIT_DESCRIPTOR_TOLERANCE = 24` (hours) is passed
  to the index operations as an explicit `tol` argument (instantiated with
  `TOLSEC` where the counter uses it).
* `dict` / `collections.defaultdict` objects become insertion-ordered
  association lists; subscript assignment replaces the value of an existing
  key in place or appends a new binding at the end, as CPython dicts do.
* Fallible operations (`int()`, `str.split` destructuring, `strptime`,
  integer division) return `Option` / `Except`, `none`/`.error` standing for
  a raised exception.
-/

/-- `EXIT_DESCRIPTOR_TOLERANCE = 24` hours, converted to seconds: the
`datetime.timedelta(hours=EXIT_DESCRIPTOR_TOLERANCE)` used by
`ExitNodeAddress.was_active` and `ExitNodeAddress.compact`. -/
def TOLSEC : Int := 24 * 3600

/-- `ExitNodeAddress`: the per-address interval list.  Each element is the
`(descriptor.published, descriptor.last_status)` pair appended by
`ExitNodeAddress.register`. -/
abbrev ExitNodeAddress := List (Int × Int)

/-- `ExitNodeAddress.was_active(date)`:
`any((desc[0] - delta) <= date <= (desc[1] + delta) for desc in self)`. -/
def was_active (tol : Int) (l : ExitNodeAddress) (date : Int) : Bool :=
  l.any fun desc => decide (desc.1 - tol ≤ date) && decide (date ≤ desc.2 + tol)

/-- Python's `<=` on pairs (tuples): lexicographic order, as used by
`self.sort()` in `ExitNodeAddress.compact`. -/
def lexLe (a b : Int × Int) : Bool :=
  decide (a.1 < b.1) || (decide (a.1 = b.1) && decide (a.2 ≤ b.2))

/-- The merge loop of `ExitNodeAddress.compact` (after `self.sort()`):
while `i < len(self) - 1`, if `self[i][1] >= self[i+1][0] - delta` replace the
pair `self[i], self[i+1]` by `(self[i][0], self[i+1][1])` and stay at `i`,
else advance `i`.  Elements before position `i` are never revisited, so the
loop is this left-to-right recursion on the part from position `i` on:
`cur` is `self[i]`, the list argument is `self[i+1:]`. -/
def mergeLoop (tol : Int) (cur : Int × Int) :
    List (Int × Int) → List (Int × Int)
  | [] => [cur]
  | d :: rest =>
    if d.1 - tol ≤ cur.2 then mergeLoop tol (cur.1, d.2) rest
    else cur :: mergeLoop tol d rest

/-- The whole merge pass of `ExitNodeAddress.compact` (a no-op on lists
shorter than two). -/
def mergePass (tol : Int) : List (Int × Int) → List (Int × Int)
  | [] => []
  | d :: rest => mergeLoop tol d rest

/-- `ExitNodeAddress.compact()`: sort lexicographically, then run the merge
loop. -/
def compact (tol : Int) (l : ExitNodeAddress) : ExitNodeAddress :=
  mergePass tol (l.mergeSort lexLe)

/-- `QubesCounter.exit_cache`: a `defaultdict(ExitNodeAddress)`, embedded as
an insertion-ordered association list. -/
abbrev ExitCache := List (String × ExitNodeAddress)

/-- First-match association-list lookup (CPython dict lookup). -/
def alookup {β : Type} (k : String) : List (String × β) → Option β
  | [] => none
  | p :: t => if p.1 = k then some p.2 else alookup k t

/-- Dict subscript assignment `m[k] = v`: replace the binding of an existing
key, otherwise append a new binding at the end. -/
def setv {β : Type} (k : String) (v : β) : List (String × β) → List (String × β)
  | [] => [(k, v)]
  | p :: t => if p.1 = k then (k, v) :: t else p :: setv k v t

/-- `defaultdict` subscript read `m[k]`: if the key is missing, the default
factory inserts a fresh empty `ExitNodeAddress` and returns it. -/
def dd_getitem (c : ExitCache) (a : String) : ExitCache × ExitNodeAddress :=
  match alookup a c with
  | some l => (c, l)
  | none => (setv a [] c, [])

/-- `QubesCounter.was_exit(request)`:
`request.address in self.exit_cache and
 self.exit_cache[request.address].was_active(request.timestamp)`.
The membership test short-circuits, so the defaultdict subscript (which would
insert) only runs on present keys; the possibly-updated cache is returned
alongside the boolean. -/
def was_exit (tol : Int) (cache : ExitCache) (address : String) (date : Int) :
    ExitCache × Bool :=
  if (alookup address cache).isSome then
    let p := dd_getitem cache address
    (p.1, was_active tol p.2 date)
  else (cache, false)

/-- One registration step of `QubesCounter.bake_exit_cache`:
`self.exit_cache[address].register(descriptor)` — the defaultdict subscript
creates the entry if missing, then `register` appends the
`(published, last_status)` pair. -/
def cacheRegister (c : ExitCache) (address : String) (desc : Int × Int) :
    ExitCache :=
  let p := dd_getitem c address
  setv address (p.2 ++ [desc]) p.1

/-- The registration loop of `bake_exit_cache` run over a whole batch of
`(address, (published, last_status))` observations, starting from the empty
cache `QubesCounter.__init__` creates. -/
def buildCache (regs : List (String × (Int × Int))) : ExitCache :=
  regs.foldl (fun c r => cacheRegister c r.1 r.2) []

/-- The interval list currently held for `a` (empty when absent). -/
def intervalsOf (c : ExitCache) (a : String) : ExitNodeAddress :=
  (alookup a c).getD []

/-- A tz-aware `datetime.datetime`, as produced by `strptime` in
`parse_combined`: calendar fields plus the UTC offset in minutes. -/
structure Timestamp where
  year : Int
  month : Nat
  day : Nat
  hour : Nat
  minute : Nat
  second : Nat
  tzmin : Int
deriving DecidableEq, Repr

/-- Day count from 1970-01-01 in the proleptic Gregorian calendar
(the standard civil-from-days inverse), used to embed datetimes on the
integer second scale. -/
def daysFromCivil (y : Int) (m d : Nat) : Int :=
  let yy : Int := if m ≤ 2 then y - 1 else y
  let era : Int := yy.fdiv 400
  let yoe : Int := yy - era * 400
  let mp : Nat := if 2 < m then m - 3 else m + 9
  let doy : Int := ((153 * mp + 2) / 5 : Nat) + (d : Int) - 1
  let doe : Int := yoe * 365 + yoe.fdiv 4 - yoe.fdiv 100 + doy
  era * 146097 + doe - 719468

/-- The point on the integer second scale denoted by a timestamp.
Datetime comparisons in the source compare these points. -/
def Timestamp.toSec (t : Timestamp) : Int :=
  daysFromCivil t.year t.month t.day * 86400
    + (t.hour : Int) * 3600 + (t.minute : Int) * 60 + (t.second : Int)
    - t.tzmin * 60

/-- `Request` dataclass. -/
structure Request where
  address : String
  timestamp : Timestamp
  path : String
  status : Int
deriving DecidableEq, Repr

/-- `Record` dataclass. -/
structure Record where
  address : String
  timestamp : Timestamp
  release : String
deriving DecidableEq, Repr

/-- `Release` bucket state: `_set_plain`, `_req_plain`, `_req_tor`.
The back-reference `self.counter` is threaded explicitly into the operations
that use it. -/
structure Release where
  set_plain : Finset String
  req_plain : Nat
  req_tor : Nat
deriving DecidableEq

/-- `Release.__init__`: empty set, zero counters. -/
def Release.init : Release := ⟨∅, 0, 0⟩

/-- `Release.plain = len(self._set_plain)`. -/
def Release.plain (r : Release) : Nat := r.set_plain.card

/-- `Release.tor = self._req_tor * self.plain // self._req_plain`;
`none` is the `ZeroDivisionError` raised when `_req_plain == 0`. -/
def Release.tor (r : Release) : Option Nat :=
  if r.req_plain = 0 then none
  else some (r.req_tor * r.plain / r.req_plain)

/-- `Release.count(record)`: classify through `self.counter.was_exit` and
bump the tor counter, or record a plain address and bump the plain counter.
The (unchanged) exit cache that `was_exit` hands back is returned so the
caller can write it back into the counter. -/
def Release.count (cache : ExitCache) (record : Record) (r : Release) :
    ExitCache × Release :=
  let q := was_exit TOLSEC cache record.address record.timestamp.toSec
  if q.2 then
    (q.1, { r with req_tor := r.req_tor + 1 })
  else
    (q.1, { r with set_plain := insert record.address r.set_plain,
                   req_plain := r.req_plain + 1 })

/-- `QubesCounter`: a dict from release label to `Release` bucket, scoped to
one `(year, month)`, holding the exit cache. -/
structure QubesCounter where
  year : Int
  month : Nat
  buckets : List (String × Release)
  exit_cache : ExitCache
deriving DecidableEq

/-- Dict read `self[key]` with `QubesCounter.__missing__`: a missing key gets
a fresh `Release` stored under it, and the stored bucket is returned. -/
def QubesCounter.getBucket (c : QubesCounter) (key : String) :
    QubesCounter × Release :=
  match alookup key c.buckets with
  | some r => (c, r)
  | none =>
    ({ c with buckets := setv key Release.init c.buckets }, Release.init)

/-- One `self[key].count(record)` step of `QubesCounter.count`: look the
bucket up (creating it via `__missing__` if needed), run `Release.count` on
it, and store the mutated bucket and cache back. -/
def QubesCounter.countOne (c : QubesCounter) (key : String) (record : Record) :
    QubesCounter :=
  let p := c.getBucket key
  let q := Release.count p.1.exit_cache record p.2
  { p.1 with exit_cache := q.1, buckets := setv key q.2 p.1.buckets }

/-- `QubesCounter.count(record)`: drop records outside the scoped
`(year, month)`; otherwise count into bucket `record.release`, then into
bucket `"any"`. -/
def QubesCounter.count (c : QubesCounter) (record : Record) : QubesCounter :=
  if (record.timestamp.year, record.timestamp.month) ≠ (c.year, c.month) then c
  else (c.countOne record.release record).countOne "any" record

/-- The observable state of the bucket for label `l`: the stored `Release`,
or a fresh one when the label has no bucket yet (`__missing__` would create
exactly this value on first touch). -/
def bucketState (c : QubesCounter) (l : String) : Release :=
  (alookup l c.buckets).getD Release.init

/-- How many of the two `count` sub-steps (`self[record.release]` and
`self['any']`) hit the bucket of label `l`. -/
def bucketHits (record : Record) (l : String) : Nat :=
  (if l = record.release then 1 else 0) + (if l = "any" then 1 else 0)

/-- Per-bucket invariant: the unique plain address set never outgrows the
plain request counter. -/
def PlainBound (c : QubesCounter) : Prop :=
  ∀ p ∈ c.buckets, p.2.set_plain.card ≤ p.2.req_plain

/-- Whitespace as stripped by Python `int()` / `str.strip()`. -/
def isSpace (c : Char) : Bool :=
  c = ' ' || c = '\t' || c = '\n' || c = '\r' || c = '\x0b' || c = '\x0c'

/-- ASCII decimal digit test. -/
def isDigitCh (c : Char) : Bool :=
  decide ('0' ≤ c) && decide (c ≤ '9')

/-- Numeric value of an ASCII digit. -/
def digitVal (c : Char) : Nat := c.toNat - '0'.toNat

/-- Value of a digit string, most significant first. -/
def digitsVal (ds : List Char) : Nat :=
  ds.foldl (fun a c => 10 * a + digitVal c) 0

/-- Strip leading and trailing whitespace. -/
def stripChars (cs : List Char) : List Char :=
  ((cs.dropWhile isSpace).reverse.dropWhile isSpace).reverse

/-- Sign-and-digits body of Python `int(str)`. -/
def pyIntCore : List Char → Option Int
  | '-' :: ds =>
    if !ds.isEmpty && ds.all isDigitCh then some (-(digitsVal ds : Int))
    else none
  | '+' :: ds =>
    if !ds.isEmpty && ds.all isDigitCh then some (digitsVal ds) else none
  | ds =>
    if !ds.isEmpty && ds.all isDigitCh then some (digitsVal ds) else none

/-- Python `int(s)`: strip whitespace, optional sign, nonempty digit run;
`none` is the raised `ValueError`.  (PEP 515 digit-group underscores never
occur in access-log fields and are not modelled.) -/
def pyInt (s : String) : Option Int := pyIntCore (stripChars s.toList)

/-- `s.split(sep, 1)` destructured into exactly two parts: split at the first
occurrence; `none` when the separator is absent (the two-name unpacking in
`parse_combined` then raises `ValueError`). -/
def splitOnceLeft (sep : Char) : List Char → Option (List Char × List Char)
  | [] => none
  | c :: t =>
    if c = sep then some ([], t)
    else
      match splitOnceLeft sep t with
      | some p => some (c :: p.1, p.2)
      | none => none

/-- `s.rsplit(sep, 1)` destructured into exactly two parts: split at the last
occurrence; `none` when the separator is absent. -/
def splitOnceRight (sep : Char) (cs : List Char) :
    Option (List Char × List Char) :=
  match splitOnceLeft sep cs.reverse with
  | some p => some (p.2.reverse, p.1.reverse)
  | none => none

/-- Hex digit value. -/
def hexVal (c : Char) : Option Nat :=
  if isDigitCh c then some (digitVal c)
  else if decide ('a' ≤ c) && decide (c ≤ 'f') then
    some (c.toNat - 'a'.toNat + 10)
  else if decide ('A' ≤ c) && decide (c ≤ 'F') then
    some (c.toNat - 'A'.toNat + 10)
  else none

/-- `urllib.parse.unquote`, modelled bytewise: each `%XX` escape becomes the
character with code `XX`; malformed escapes are kept verbatim.  (A multi-byte
UTF-8 escape sequence decodes to one character per byte here; no claim
depends on non-ASCII paths.) -/
def unquoteChars : List Char → List Char
  | '%' :: a :: b :: rest =>
    match hexVal a, hexVal b with
    | some x, some y => Char.ofNat (16 * x + y) :: unquoteChars rest
    | _, _ => '%' :: unquoteChars (a :: b :: rest)
  | c :: rest => c :: unquoteChars rest
  | [] => []

/-- `urllib.parse.unquote` on a string. -/
def unquote (s : String) : String := String.mk (unquoteChars s.toList)

/-- `%b`: three-letter English month abbreviation, case-insensitively. -/
def monthNum (c1 c2 c3 : Char) : Option Nat :=
  let s := String.mk [c1.toLower, c2.toLower, c3.toLower]
  if s = "jan" then some 1 else if s = "feb" then some 2
  else if s = "mar" then some 3 else if s = "apr" then some 4
  else if s = "may" then some 5 else if s = "jun" then some 6
  else if s = "jul" then some 7 else if s = "aug" then some 8
  else if s = "sep" then some 9 else if s = "oct" then some 10
  else if s = "nov" then some 11 else if s = "dec" then some 12
  else none

/-- Gregorian leap year. -/
def isLeap (y : Int) : Bool :=
  (decide (y % 4 = 0) && !decide (y % 100 = 0)) || decide (y % 400 = 0)

/-- Month length, as validated by the `datetime.datetime` constructor. -/
def daysInMonth (y : Int) (m : Nat) : Nat :=
  if m = 2 then (if isLeap y then 29 else 28)
  else if m = 4 ∨ m = 6 ∨ m = 9 ∨ m = 11 then 30
  else 31

/-- A `strptime` numeric field: a greedy digit run of at most `maxLen`
digits whose value lies in `lo..hi`. -/
def pNum (maxLen lo hi : Nat) (cs : List Char) : Option (Nat × List Char) :=
  let ds := cs.takeWhile isDigitCh
  if ds.length = 0 ∨ maxLen < ds.length then none
  else
    let v := digitsVal ds
    if lo ≤ v ∧ v ≤ hi then some (v, cs.dropWhile isDigitCh) else none

/-- `%Y`: exactly four digits. -/
def pNum4 (cs : List Char) : Option (Nat × List Char) :=
  let ds := cs.takeWhile isDigitCh
  if ds.length = 4 then some (digitsVal ds, cs.dropWhile isDigitCh) else none

/-- Exactly two digits. -/
def pTwoDigits : List Char → Option (Nat × List Char)
  | a :: b :: rest =>
    if isDigitCh a && isDigitCh b then
      some (10 * digitVal a + digitVal b, rest)
    else none
  | _ => none

/-- `%z`: sign, two hour digits, optional colon, two minute digits (at most
59); the resulting offset must be less than a day for the
`datetime.timezone` constructor to accept it.  Returns the offset in
minutes. -/
def pTz : List Char → Option (Int × List Char)
  | s :: rest =>
    if s = '+' ∨ s = '-' then
      match pTwoDigits rest with
      | some hhr =>
        let r1 := match hhr.2 with
          | ':' :: t => t
          | other => other
        match pTwoDigits r1 with
        | some mmr =>
          if mmr.1 ≤ 59 ∧ hhr.1 * 60 + mmr.1 < 1440 then
            some ((if s = '-' then -(hhr.1 * 60 + mmr.1 : Int)
                   else (hhr.1 * 60 + mmr.1 : Int)), mmr.2)
          else none
        | none => none
      | none => none
    else none
  | [] => none

/-- `datetime.datetime.strptime(f'{localtime1} {localtime2}',
'[%d/%b/%Y:%H:%M:%S %z]')`, including the calendar validation the
`datetime` constructor performs; `none` is the raised `ValueError`. -/
def strptimeCombined (s : String) : Option Timestamp :=
  match s.toList with
  | '[' :: r0 =>
    match pNum 2 1 31 r0 with
    | some dr =>
      match dr.2 with
      | '/' :: c1 :: c2 :: c3 :: '/' :: r2 =>
        match monthNum c1 c2 c3 with
        | some mo =>
          match pNum4 r2 with
          | some yr =>
            match yr.2 with
            | ':' :: r4 =>
              match pNum 2 0 23 r4 with
              | some hr =>
                match hr.2 with
                | ':' :: r6 =>
                  match pNum 2 0 59 r6 with
                  | some mir =>
                    match mir.2 with
                    | ':' :: r8 =>
                      match pNum 2 0 59 r8 with
                      | some ssr =>
                        match ssr.2 with
                        | ' ' :: r9 =>
                          match pTz (r9.dropWhile (fun c => c = ' ')) with
                          | some tzr =>
                            match tzr.2 with
                            | [']'] =>
                              if 1 ≤ yr.1 ∧ dr.1 ≤ daysInMonth yr.1 mo then
                                some ⟨yr.1, mo, dr.1, hr.1, mir.1, ssr.1,
                                      tzr.1⟩
                              else none
                            | _ => none
                          | none => none
                        | _ => none
                      | none => none
                    | _ => none
                  | none => none
                | _ => none
              | none => none
            | _ => none
          | none => none
        | none => none
      | _ => none
    | none => none
  | _ => none

/-- One iteration of the `parse_combined` loop body on one csv-tokenized
line (the quote-aware `csv.reader(file, delimiter=' ')` tokenization is the
external stdlib collaborator, so a line arrives as its field list).
`.ok none` is the `continue` taken for status-400 lines; `.error ()` is a
raised exception: tuple unpacking of a wrong-arity line, `int()` on a
non-numeric status/length, destructuring a spaceless request field, or
`strptime` failure. -/
def parseLine (line : List String) : Except Unit (Option Request) :=
  match line with
  | [address, _ident, _user, lt1, lt2, req, status, length, _referer, _ua] =>
    match pyInt status, pyInt length with
    | some st, some _len =>
      if st = 400 then Except.ok none
      else
        match splitOnceLeft ' ' req.toList with
        | some mp =>
          match splitOnceRight ' ' mp.2 with
          | some pv =>
            match strptimeCombined (lt1 ++ " " ++ lt2) with
            | some ts =>
              Except.ok (some ⟨address, ts, unquote (String.mk pv.1), st⟩)
            | none => Except.error ()
          | none => Except.error ()
        | none => Except.error ()
    | _, _ => Except.error ()
  | _ => Except.error ()

/-- The `parse_combined` generator driven over a whole token stream: the
`Request`s yielded before the first raising line, together with the line
whose exception aborts the generator (`none` when the stream completes). -/
def parse_combined (lines : List (List String)) :
    List Request × Option (List String) :=
  match lines with
  | [] => ([], none)
  | l :: rest =>
    match parseLine l with
    | Except.error _ => ([], some l)
    | Except.ok none => parse_combined rest
    | Except.ok (some r) =>
      let p := parse_combined rest
      (r :: p.1, p.2)

/-- The classification `count` makes for a record: the boolean of
`self.counter.was_exit(record)` under the deployed 24-hour tolerance. -/
def isRelay (cache : ExitCache) (record : Record) : Bool :=
  (was_exit TOLSEC cache record.address record.timestamp.toSec).2

/-- Whether driving the parser over this line raises (`false`) or not
(`true`). -/
def lineOk (l : List String) : Bool :=
  match parseLine l with
  | Except.error _ => false
  | Except.ok _ => true

/-- The request a line contributes to the stream, if any. -/
def lineRequest (l : List String) : Option Request :=
  match parseLine l with
  | Except.ok (some r) => some r
  | _ => none

/-- A well-formed combined-format line from the repository's parser tests
(csv-tokenized). -/
def okLine : List String :=
  ["127.81.0.1", "-", "-", "[01/Aug/2022:00:00:16", "+0000]",
   "GET /iso/Qubes-R4.1.1-x86%5F64/Qubes-R4.1.1-x86%5F64.iso HTTP/1.1",
   "404", "169", "-", "Transmission/3.00"]

/-- The request `okLine` parses to. -/
def okRequest : Request :=
  ⟨"127.81.0.1", ⟨2022, 8, 1, 0, 0, 16, 0⟩,
   "/iso/Qubes-R4.1.1-x86_64/Qubes-R4.1.1-x86_64.iso", 404⟩

/-- A truncated garbage line: tuple unpacking raises on its three fields. -/
def truncatedLine : List String := ["127.81.0.1", "-", "-"]

/-- A one-observation registration batch used as a concrete query witness. -/
def regs4 : List (String × (Int × Int)) := [("198.51.100.7", (0, 7200))]

/-! ### Association-list lemmas -/

theorem alookup_setv_self {β : Type} (k : String) (v : β)
    (l : List (String × β)) : alookup k (setv k v l) = some v := by
  induction l with
  | nil => simp [setv, alookup]
  | cons p t ih =>
    by_cases h : p.1 = k
    · simp [setv, h, alookup]
    · simp [setv, h, alookup, ih]

theorem alookup_setv_ne {β : Type} {k k' : String} (v : β)
    (l : List (String × β)) (h : k' ≠ k) :
    alookup k' (setv k v l) = alookup k' l := by
  induction l with
  | nil =>
    simp only [setv, alookup]
    rw [if_neg (Ne.symm h)]
  | cons p t ih =>
    simp only [setv]
    by_cases hp : p.1 = k
    · rw [if_pos hp]
      have hne : ¬ p.1 = k' := by rw [hp]; exact Ne.symm h
      simp only [alookup]
      rw [if_neg (Ne.symm h), if_neg hne]
    · rw [if_neg hp]
      simp only [alookup, ih]

theorem alookup_mem {β : Type} {k : String} {v : β} {l : List (String × β)}
    (h : alookup k l = some v) : (k, v) ∈ l := by
  induction l with
  | nil => simp [alookup] at h
  | cons p t ih =>
    simp only [alookup] at h
    by_cases hp : p.1 = k
    · rw [if_pos hp] at h
      injection h with h2
      subst h2
      obtain ⟨a, b⟩ := p
      simp only at hp
      subst hp
      exact List.mem_cons_self _ _
    · rw [if_neg hp] at h
      exact List.mem_cons_of_mem _ (ih h)

theorem mem_setv {β : Type} {p : String × β} {k : String} {v : β}
    {l : List (String × β)} (h : p ∈ setv k v l) : p = (k, v) ∨ p ∈ l := by
  induction l with
  | nil =>
    simp only [setv] at h
    exact Or.inl (List.mem_singleton.mp h)
  | cons q t ih =>
    simp only [setv] at h
    by_cases hq : q.1 = k
    · rw [if_pos hq] at h
      rcases List.mem_cons.mp h with h' | h'
      · exact Or.inl h'
      · exact Or.inr (List.mem_cons_of_mem _ h')
    · rw [if_neg hq] at h
      rcases List.mem_cons.mp h with h' | h'
      · exact Or.inr (by rw [h']; exact List.mem_cons_self _ _)
      · rcases ih h' with h2 | h2
        · exact Or.inl h2
        · exact Or.inr (List.mem_cons_of_mem _ h2)

/-! ### Query lemmas -/

theorem was_active_iff (tol : Int) (l : ExitNodeAddress) (t : Int) :
    was_active tol l t = true ↔ ∃ p ∈ l, p.1 - tol ≤ t ∧ t ≤ p.2 + tol := by
  simp [was_active]

/-- `was_exit` never changes the exit cache: the membership test guards the
defaultdict subscript. -/
theorem was_exit_cache_eq (tol : Int) (cache : ExitCache) (a : String)
    (t : Int) : (was_exit tol cache a t).1 = cache := by
  unfold was_exit dd_getitem
  cases h : alookup a cache <;> simp [h]

theorem was_exit_snd_iff (tol : Int) (cache : ExitCache) (a : String)
    (t : Int) :
    (was_exit tol cache a t).2 = true ↔
      ∃ p ∈ intervalsOf cache a, p.1 - tol ≤ t ∧ t ≤ p.2 + tol := by
  unfold was_exit dd_getitem intervalsOf
  cases h : alookup a cache with
  | none => simp [h]
  | some l => simp [h, was_active_iff]

/-- C10.  Querying the index never mutates it: `was_exit` returns the exit
cache unchanged for every address — present in the cache or not — and every
timestamp, because the `in` membership test short-circuits before the
defaultdict subscript can insert a default entry. -/
theorem C10_query_no_mutation (tol : Int) (cache : ExitCache) (a : String)
    (t : Int) : (was_exit tol cache a t).1 = cache :=
  was_exit_cache_eq tol cache a t

/-- C3.  Reading `Release.tor` yields
`_req_tor * plain // _req_plain` (truncating division) whenever
`_req_plain > 0`, and raises `ZeroDivisionError` (modelled `none`) whenever
`_req_plain = 0`. -/
theorem C3_relay_estimate (r : Release) :
    (r.req_plain ≠ 0 → r.tor = some (r.req_tor * r.plain / r.req_plain)) ∧
    (r.req_plain = 0 → r.tor = none) := by
  constructor <;> intro h <;> simp [Release.tor, h]

/-- Witness for C3 at concrete buckets. -/
theorem C3_witness :
    Release.tor ⟨∅, 1, 3⟩ = some (3 * Release.plain ⟨∅, 1, 3⟩ / 1) ∧
    Release.tor ⟨∅, 0, 3⟩ = none :=
  ⟨(C3_relay_estimate ⟨∅, 1, 3⟩).1 (by decide),
   (C3_relay_estimate ⟨∅, 0, 3⟩).2 rfl⟩

/-- C6.  A record whose `(year, month)` differs from the counter's scope
leaves the whole counter unchanged: no bucket is created and no bucket or
cache field is touched. -/
theorem C6_out_of_scope_noop (c : QubesCounter) (record : Record)
    (h : (record.timestamp.year, record.timestamp.month) ≠ (c.year, c.month)) :
    c.count record = c := by
  unfold QubesCounter.count
  rw [if_pos h]

/-- Witness for C6: a July record against an August 2022 counter. -/
theorem C6_witness :
    QubesCounter.count ⟨2022, 8, [], []⟩
      ⟨"198.51.100.7", ⟨2022, 7, 31, 23, 59, 59, 0⟩, "r4.1"⟩ =
      (⟨2022, 8, [], []⟩ : QubesCounter) :=
  C6_out_of_scope_noop _ _ (by decide)

/-! ### Cache building (C4) -/

theorem intervalsOf_cacheRegister (c : ExitCache) (a b : String)
    (q : Int × Int) :
    intervalsOf (cacheRegister c b q) a =
      if a = b then intervalsOf c a ++ [q] else intervalsOf c a := by
  unfold cacheRegister dd_getitem intervalsOf
  by_cases hab : a = b
  · subst hab
    cases h : alookup a c with
    | none =>
      simp only [h]
      rw [alookup_setv_self]
      simp
    | some l =>
      simp only [h]
      rw [alookup_setv_self]
      simp
  · cases h : alookup b c with
    | none =>
      simp only [h]
      rw [alookup_setv_ne _ _ hab, alookup_setv_ne _ _ hab, if_neg hab]
    | some l =>
      simp only [h]
      rw [alookup_setv_ne _ _ hab, if_neg hab]

theorem mem_intervalsOf_foldl (regs : List (String × (Int × Int)))
    (c : ExitCache) (a : String) (q : Int × Int) :
    q ∈ intervalsOf
        (regs.foldl (fun c r => cacheRegister c r.1 r.2) c) a ↔
      q ∈ intervalsOf c a ∨ (a, q) ∈ regs := by
  induction regs generalizing c with
  | nil => simp
  | cons r t ih =>
    simp only [List.foldl_cons, ih, intervalsOf_cacheRegister]
    obtain ⟨b, p⟩ := r
    by_cases hab : a = b
    · subst hab
      simp [List.mem_append, Prod.mk.injEq, eq_comm]
      tauto
    · simp only [if_neg hab]
      simp [List.mem_cons, Prod.mk.injEq, hab]

/-- C4.  `query` semantics: over a cache built by any sequence of `register`
calls, `was_exit` answers true exactly when some registered interval
`(s, e)` for that address satisfies `s - tol ≤ t ≤ e + tol`; an address
never registered always answers false. -/
theorem C4_query_semantics (tol : Int) (regs : List (String × (Int × Int)))
    (a : String) (t : Int) :
    ((was_exit tol (buildCache regs) a t).2 = true ↔
      ∃ s e, (a, (s, e)) ∈ regs ∧ s - tol ≤ t ∧ t ≤ e + tol) ∧
    (a ∉ regs.map Prod.fst → (was_exit tol (buildCache regs) a t).2 = false) := by
  have hmain : (was_exit tol (buildCache regs) a t).2 = true ↔
      ∃ s e, (a, (s, e)) ∈ regs ∧ s - tol ≤ t ∧ t ≤ e + tol := by
    rw [was_exit_snd_iff]
    unfold buildCache
    constructor
    · rintro ⟨p, hp, h1, h2⟩
      rcases (mem_intervalsOf_foldl regs [] a p).mp hp with h | h
      · simp [intervalsOf, alookup] at h
      · exact ⟨p.1, p.2, h, h1, h2⟩
    · rintro ⟨s, e, hmem, h1, h2⟩
      exact ⟨(s, e), (mem_intervalsOf_foldl regs [] a (s, e)).mpr
        (Or.inr hmem), h1, h2⟩
  refine ⟨hmain, fun hno => ?_⟩
  rcases hb : (was_exit tol (buildCache regs) a t).2 with _ | _
  · rfl
  · exfalso
    rcases hmain.mp hb with ⟨s, e, hmem, -, -⟩
    exact hno (List.mem_map.mpr ⟨(a, (s, e)), hmem, rfl⟩)

/-- Witness for C4: one registered address queried inside its widened
interval, and an unregistered address. -/
theorem C4_witness :
    ((was_exit 86400 (buildCache regs4)
        "198.51.100.7" 3600).2 = true ↔
      ∃ s e, ("198.51.100.7", (s, e)) ∈ regs4 ∧
        s - 86400 ≤ 3600 ∧ 3600 ≤ e + 86400) ∧
    ((was_exit 86400 (buildCache regs4)
        "203.0.113.9" 3600).2 = false) :=
  ⟨(C4_query_semantics 86400 regs4 "198.51.100.7" 3600).1,
   (C4_query_semantics 86400 regs4 "203.0.113.9" 3600).2 (by decide)⟩

/-! ### Counter lemmas -/

theorem getBucket_fst_cache (c : QubesCounter) (k : String) :
    (c.getBucket k).1.exit_cache = c.exit_cache := by
  unfold QubesCounter.getBucket
  cases h : alookup k c.buckets <;> simp [h]

theorem getBucket_fst_year (c : QubesCounter) (k : String) :
    (c.getBucket k).1.year = c.year := by
  unfold QubesCounter.getBucket
  cases h : alookup k c.buckets <;> simp [h]

theorem getBucket_fst_month (c : QubesCounter) (k : String) :
    (c.getBucket k).1.month = c.month := by
  unfold QubesCounter.getBucket
  cases h : alookup k c.buckets <;> simp [h]

theorem getBucket_snd (c : QubesCounter) (k : String) :
    (c.getBucket k).2 = bucketState c k := by
  unfold QubesCounter.getBucket bucketState
  cases h : alookup k c.buckets <;> simp [h]

theorem getBucket_bucketState (c : QubesCounter) (k l : String) :
    bucketState (c.getBucket k).1 l = bucketState c l := by
  unfold QubesCounter.getBucket
  cases h : alookup k c.buckets with
  | some r => simp [h]
  | none =>
    simp only [h]
    unfold bucketState
    by_cases hlk : l = k
    · subst hlk
      simp only
      rw [alookup_setv_self, h]
      simp
    · simp only
      rw [alookup_setv_ne _ _ hlk]

theorem Release.count_fst (cache : ExitCache) (record : Record)
    (r : Release) : (Release.count cache record r).1 = cache := by
  unfold Release.count
  rcases h : was_exit TOLSEC cache record.address record.timestamp.toSec
    with ⟨c', b⟩
  have hc : c' = cache := by
    have := was_exit_cache_eq TOLSEC cache record.address record.timestamp.toSec
    rw [h] at this
    exact this
  cases b <;> simp [h, hc]

theorem Release.count_snd (cache : ExitCache) (record : Record)
    (r : Release) :
    (Release.count cache record r).2 =
      if isRelay cache record then { r with req_tor := r.req_tor + 1 }
      else { r with set_plain := insert record.address r.set_plain,
                    req_plain := r.req_plain + 1 } := by
  unfold Release.count isRelay
  cases h : (was_exit TOLSEC cache record.address record.timestamp.toSec).2
    <;> simp [h]

theorem countOne_cache (c : QubesCounter) (k : String) (record : Record) :
    (c.countOne k record).exit_cache = c.exit_cache := by
  unfold QubesCounter.countOne
  simp [Release.count_fst, getBucket_fst_cache]

theorem countOne_year (c : QubesCounter) (k : String) (record : Record) :
    (c.countOne k record).year = c.year := by
  unfold QubesCounter.countOne
  simp [getBucket_fst_year]

theorem countOne_month (c : QubesCounter) (k : String) (record : Record) :
    (c.countOne k record).month = c.month := by
  unfold QubesCounter.countOne
  simp [getBucket_fst_month]

theorem countOne_bucketState (c : QubesCounter) (k : String)
    (record : Record) (l : String) :
    bucketState (c.countOne k record) l =
      if l = k then
        (Release.count c.exit_cache record (bucketState c k)).2
      else bucketState c l := by
  by_cases hlk : l = k
  · subst hlk
    rw [if_pos rfl]
    unfold QubesCounter.countOne bucketState
    simp only [alookup_setv_self, Option.getD_some, getBucket_fst_cache]
    rw [getBucket_snd]
    rfl
  · rw [if_neg hlk]
    unfold QubesCounter.countOne bucketState
    simp only [alookup_setv_ne _ _ hlk]
    have h1 := getBucket_bucketState c k l
    unfold bucketState at h1
    exact h1

/-- How one in-scope `count(record)` call transforms the observable state of
every bucket. -/
theorem count_bucketState (c : QubesCounter) (record : Record) (l : String)
    (h : (record.timestamp.year, record.timestamp.month) = (c.year, c.month)) :
    bucketState (c.count record) l =
      if isRelay c.exit_cache record then
        ⟨(bucketState c l).set_plain, (bucketState c l).req_plain,
         (bucketState c l).req_tor + bucketHits record l⟩
      else
        ⟨(if 0 < bucketHits record l then
            insert record.address (bucketState c l).set_plain
          else (bucketState c l).set_plain),
         (bucketState c l).req_plain + bucketHits record l,
         (bucketState c l).req_tor⟩ := by
  unfold QubesCounter.count
  rw [if_neg (not_not_intro h)]
  rw [countOne_bucketState, countOne_cache, countOne_bucketState,
    countOne_bucketState]
  by_cases h3 : record.release = "any" <;>
    by_cases h1 : l = "any" <;> by_cases h2 : l = record.release <;>
      cases hex : isRelay c.exit_cache record <;>
        simp_all [Release.count_snd, bucketHits, Finset.insert_idem,
          @eq_comm String "any"]

/-- C5.  For an in-scope record, `count` updates exactly the buckets of
`record.release` and `"any"` (one hit each, so two on the same bucket when
they coincide): a relay record adds its hits to `requestsRelay` and touches
no plain field; a direct record adds its address to `uniquePlain` and its
hits to `requestsPlain`, touching no relay field; all other buckets are
unchanged. -/
theorem C5_count_in_scope (c : QubesCounter) (record : Record) (l : String)
    (h : (record.timestamp.year, record.timestamp.month) =
      (c.year, c.month)) :
    bucketState (c.count record) l =
      if isRelay c.exit_cache record then
        ⟨(bucketState c l).set_plain, (bucketState c l).req_plain,
         (bucketState c l).req_tor + bucketHits record l⟩
      else
        ⟨(if 0 < bucketHits record l then
            insert record.address (bucketState c l).set_plain
          else (bucketState c l).set_plain),
         (bucketState c l).req_plain + bucketHits record l,
         (bucketState c l).req_tor⟩ :=
  count_bucketState c record l h

/-- Witness for C5 at a concrete in-scope record and bucket. -/
theorem C5_witness :
    bucketState
        (QubesCounter.count ⟨2022, 8, [], []⟩
          ⟨"192.0.2.1", ⟨2022, 8, 1, 0, 0, 16, 0⟩, "r4.1"⟩) "r4.1" =
      if isRelay ([] : ExitCache)
          ⟨"192.0.2.1", ⟨2022, 8, 1, 0, 0, 16, 0⟩, "r4.1"⟩ then
        ⟨(bucketState ⟨2022, 8, [], []⟩ "r4.1").set_plain,
         (bucketState ⟨2022, 8, [], []⟩ "r4.1").req_plain,
         (bucketState ⟨2022, 8, [], []⟩ "r4.1").req_tor +
           bucketHits ⟨"192.0.2.1", ⟨2022, 8, 1, 0, 0, 16, 0⟩, "r4.1"⟩
             "r4.1"⟩
      else
        ⟨(if 0 < bucketHits ⟨"192.0.2.1", ⟨2022, 8, 1, 0, 0, 16, 0⟩, "r4.1"⟩
              "r4.1" then
            insert "192.0.2.1"
              (bucketState ⟨2022, 8, [], []⟩ "r4.1").set_plain
          else (bucketState ⟨2022, 8, [], []⟩ "r4.1").set_plain),
         (bucketState ⟨2022, 8, [], []⟩ "r4.1").req_plain +
           bucketHits ⟨"192.0.2.1", ⟨2022, 8, 1, 0, 0, 16, 0⟩, "r4.1"⟩
             "r4.1",
         (bucketState ⟨2022, 8, [], []⟩ "r4.1").req_tor⟩ :=
  C5_count_in_scope ⟨2022, 8, [], []⟩
    ⟨"192.0.2.1", ⟨2022, 8, 1, 0, 0, 16, 0⟩, "r4.1"⟩ "r4.1" rfl

/-- C9.  An in-scope record labelled exactly `"any"` hits the `"any"` bucket
twice — once as its own release bucket and once as the global bucket: a
relay record adds 2 to that bucket's `requestsRelay`, a direct record adds
2 to its `requestsPlain` (the address set absorbs the double insert). -/
theorem C9_any_double_count (c : QubesCounter) (record : Record)
    (h : (record.timestamp.year, record.timestamp.month) =
      (c.year, c.month))
    (hrel : record.release = "any") :
    bucketState (c.count record) "any" =
      if isRelay c.exit_cache record then
        ⟨(bucketState c "any").set_plain, (bucketState c "any").req_plain,
         (bucketState c "any").req_tor + 2⟩
      else
        ⟨insert record.address (bucketState c "any").set_plain,
         (bucketState c "any").req_plain + 2,
         (bucketState c "any").req_tor⟩ := by
  rw [count_bucketState c record "any" h]
  have hh : bucketHits record "any" = 2 := by simp [bucketHits, hrel]
  rw [hh]
  cases hex : isRelay c.exit_cache record <;> simp [hex]

/-- Witness for C9 at a concrete in-scope `"any"`-labelled record. -/
theorem C9_witness :
    bucketState
        (QubesCounter.count ⟨2022, 8, [], []⟩
          ⟨"192.0.2.1", ⟨2022, 8, 1, 0, 0, 16, 0⟩, "any"⟩) "any" =
      if isRelay ([] : ExitCache)
          ⟨"192.0.2.1", ⟨2022, 8, 1, 0, 0, 16, 0⟩, "any"⟩ then
        ⟨(bucketState ⟨2022, 8, [], []⟩ "any").set_plain,
         (bucketState ⟨2022, 8, [], []⟩ "any").req_plain,
         (bucketState ⟨2022, 8, [], []⟩ "any").req_tor + 2⟩
      else
        ⟨insert "192.0.2.1" (bucketState ⟨2022, 8, [], []⟩ "any").set_plain,
         (bucketState ⟨2022, 8, [], []⟩ "any").req_plain + 2,
         (bucketState ⟨2022, 8, [], []⟩ "any").req_tor⟩ :=
  C9_any_double_count ⟨2022, 8, [], []⟩
    ⟨"192.0.2.1", ⟨2022, 8, 1, 0, 0, 16, 0⟩, "any"⟩ rfl rfl

/-! ### The plain-count invariant (C7) -/

theorem bucketState_plainBound {c : QubesCounter} (h : PlainBound c)
    (k : String) :
    (bucketState c k).set_plain.card ≤ (bucketState c k).req_plain := by
  unfold bucketState
  cases hk : alookup k c.buckets with
  | none => simp [Release.init]
  | some v => simpa using h (k, v) (alookup_mem hk)

theorem releaseCount_plainBound (cache : ExitCache) (record : Record)
    {r : Release} (h : r.set_plain.card ≤ r.req_plain) :
    (Release.count cache record r).2.set_plain.card ≤
      (Release.count cache record r).2.req_plain := by
  rw [Release.count_snd]
  cases hex : isRelay cache record
  · simp only [hex, Bool.false_eq_true, if_false]
    exact le_trans (Finset.card_insert_le _ _) (Nat.succ_le_succ h)
  · simp only [hex, if_true]
    exact h

theorem countOne_buckets (c : QubesCounter) (k : String) (record : Record) :
    (c.countOne k record).buckets =
      setv k (Release.count c.exit_cache record (bucketState c k)).2
        (c.getBucket k).1.buckets := by
  unfold QubesCounter.countOne
  simp only [getBucket_fst_cache, getBucket_snd]

theorem mem_getBucket_buckets {p : String × Release} (c : QubesCounter)
    (k : String) (hp : p ∈ (c.getBucket k).1.buckets) :
    p = (k, Release.init) ∨ p ∈ c.buckets := by
  unfold QubesCounter.getBucket at hp
  cases h : alookup k c.buckets with
  | some r => simp [h] at hp; exact Or.inr hp
  | none =>
    simp only [h] at hp
    exact mem_setv hp

theorem countOne_plainBound {c : QubesCounter} (k : String) (record : Record)
    (h : PlainBound c) : PlainBound (c.countOne k record) := by
  intro p hp
  rw [countOne_buckets] at hp
  rcases mem_setv hp with hpe | hpm
  · subst hpe
    exact releaseCount_plainBound _ _ (bucketState_plainBound h k)
  · rcases mem_getBucket_buckets c k hpm with hpe | hpm'
    · subst hpe
      simp [Release.init]
    · exact h p hpm'

theorem count_plainBound {c : QubesCounter} (record : Record)
    (h : PlainBound c) : PlainBound (c.count record) := by
  unfold QubesCounter.count
  by_cases hsc : (record.timestamp.year, record.timestamp.month) ≠
    (c.year, c.month)
  · rw [if_pos hsc]
    exact h
  · rw [if_neg hsc]
    exact countOne_plainBound _ _ (countOne_plainBound _ _ h)

theorem foldl_count_plainBound (records : List Record) :
    ∀ c : QubesCounter, PlainBound c →
      PlainBound (records.foldl QubesCounter.count c) := by
  induction records with
  | nil => intro c h; exact h
  | cons r t ih =>
    intro c h
    exact ih _ (count_plainBound r h)

/-- C7.  In every bucket the unique plain-address set never outgrows the
plain request counter: one `count` step preserves the invariant, and it
holds after any record sequence fed to a freshly constructed counter. -/
theorem C7_plain_bound :
    (∀ (c : QubesCounter) (record : Record),
       PlainBound c → PlainBound (c.count record)) ∧
    (∀ (year : Int) (month : Nat) (cache : ExitCache)
       (records : List Record),
       PlainBound (records.foldl QubesCounter.count
         ⟨year, month, [], cache⟩)) := by
  constructor
  · intro c record h
    exact count_plainBound record h
  · intro year month cache records
    refine foldl_count_plainBound records _ ?_
    intro p hp
    simp at hp

/-- Witness for C7: the invariant after counting one record into a fresh
counter. -/
theorem C7_witness :
    PlainBound (QubesCounter.count ⟨2022, 8, [], []⟩
      ⟨"192.0.2.1", ⟨2022, 8, 1, 0, 0, 16, 0⟩, "r4.1"⟩) :=
  C7_plain_bound.1 _ _ (by intro p hp; simp at hp)

/-! ### Parser error handling (C2) -/

/-- C2 (amended).  A status-400 line is skipped (its `continue` keeps the
stream going), and the requests of earlier well-parsed lines are yielded;
but the first line whose parse raises — wrong field arity, non-integer
status/length, spaceless request field or unparseable timestamp — aborts
the whole stream: the generator re-raises after logging, and no later line
is ever reached. -/
theorem C2_amended_parse_abort (pre : List (List String))
    (bad : List String) (rest : List (List String))
    (hok : ∀ l ∈ pre, lineOk l = true) (hbad : lineOk bad = false) :
    parse_combined (pre ++ bad :: rest) =
      (pre.filterMap lineRequest, some bad) := by
  induction pre with
  | nil =>
    simp only [List.nil_append, List.filterMap_nil]
    unfold parse_combined
    unfold lineOk at hbad
    cases h : parseLine bad with
    | error e => simp [h]
    | ok o =>
      rw [h] at hbad
      simp at hbad
  | cons l t ih =>
    have hl : lineOk l = true := hok l (List.mem_cons_self _ _)
    have ht : ∀ x ∈ t, lineOk x = true :=
      fun x hx => hok x (List.mem_cons_of_mem _ hx)
    simp only [List.cons_append, List.filterMap_cons]
    unfold parse_combined
    unfold lineOk at hl
    cases h : parseLine l with
    | error e =>
      rw [h] at hl
      simp at hl
    | ok o =>
      cases o with
      | none => simp [h, lineRequest, ih ht]
      | some r => simp [h, lineRequest, ih ht]

/-- C2 counterexample: the truncated line raises and aborts the stream —
the following well-formed line, which parses fine on its own, is never
yielded; the claimed skip-and-continue behavior does not happen. -/
theorem C2_counterexample :
    parse_combined [truncatedLine, okLine] = ([], some truncatedLine) ∧
    parse_combined [okLine] = ([okRequest], none) := by
  constructor <;> rfl

/-- Witness for the amended C2 on a concrete stream. -/
theorem C2_witness :
    parse_combined ([okLine] ++ truncatedLine :: [okLine]) =
      ([okLine].filterMap lineRequest, some truncatedLine) :=
  C2_amended_parse_abort [okLine] truncatedLine [okLine]
    (by
      intro l hl
      rw [List.mem_singleton] at hl
      subst hl
      rfl)
    rfl

/-! ### Interval compaction (C1, C8) -/

theorem was_active_cons (tol : Int) (d : Int × Int) (l : ExitNodeAddress)
    (t : Int) :
    was_active tol (d :: l) t =
      ((decide (d.1 - tol ≤ t) && decide (t ≤ d.2 + tol)) ||
        was_active tol l t) := rfl

theorem was_active_perm {l l' : ExitNodeAddress} (h : l.Perm l')
    (tol : Int) (t : Int) :
    was_active tol l t = was_active tol l' t := by
  rw [Bool.eq_iff_iff, was_active_iff, was_active_iff]
  constructor <;> rintro ⟨p, hp, h1, h2⟩
  · exact ⟨p, h.mem_iff.mp hp, h1, h2⟩
  · exact ⟨p, h.mem_iff.mpr hp, h1, h2⟩

theorem lexLe_trans (a b c : Int × Int) (h1 : lexLe a b) (h2 : lexLe b c) :
    lexLe a c := by
  simp only [lexLe, Bool.or_eq_true, Bool.and_eq_true,
    decide_eq_true_eq] at h1 h2 ⊢
  omega

theorem lexLe_total (a b : Int × Int) : lexLe a b || lexLe b a := by
  simp only [lexLe, Bool.or_eq_true, Bool.and_eq_true,
    decide_eq_true_eq]
  omega

/-- The single merge step of `compact` is query-preserving exactly when the
second interval's end is not below the first's. -/
theorem merged_pair_iff {tol : Int} (ht : 0 ≤ tol) {d0 d1 : Int × Int}
    (h1 : d0.1 ≤ d1.1) (h2 : d0.2 ≤ d1.2) (hm : d1.1 - tol ≤ d0.2)
    (t : Int) :
    (d0.1 - tol ≤ t ∧ t ≤ d1.2 + tol) ↔
      ((d0.1 - tol ≤ t ∧ t ≤ d0.2 + tol) ∨
       (d1.1 - tol ≤ t ∧ t ≤ d1.2 + tol)) := by
  constructor
  · rintro ⟨ha, hb⟩
    by_cases hc : t ≤ d0.2 + tol
    · exact Or.inl ⟨ha, hc⟩
    · exact Or.inr ⟨by omega, hb⟩
  · rintro (⟨ha, hb⟩ | ⟨ha, hb⟩)
    · exact ⟨ha, by omega⟩
    · exact ⟨by omega, hb⟩

theorem mergeLoop_was_active (tol : Int) (ht : 0 ≤ tol) :
    ∀ (rest : List (Int × Int)) (cur : Int × Int),
      (cur :: rest).Pairwise (fun a b => a.1 ≤ b.1 ∧ a.2 ≤ b.2) →
      ∀ t : Int,
        was_active tol (mergeLoop tol cur rest) t =
          was_active tol (cur :: rest) t := by
  intro rest
  induction rest with
  | nil => intro cur hpw t; rfl
  | cons d rest ih =>
    intro cur hpw t
    rcases List.pairwise_cons.mp hpw with ⟨hcur, hpw'⟩
    rcases List.pairwise_cons.mp hpw' with ⟨hd, hrest⟩
    have hcd : cur.1 ≤ d.1 ∧ cur.2 ≤ d.2 := hcur d (List.mem_cons_self _ _)
    unfold mergeLoop
    by_cases hm : d.1 - tol ≤ cur.2
    · rw [if_pos hm]
      have hpw2 : ((cur.1, d.2) :: rest).Pairwise
          (fun a b => a.1 ≤ b.1 ∧ a.2 ≤ b.2) := by
        rw [List.pairwise_cons]
        exact ⟨fun c hc => ⟨(hcur c (List.mem_cons_of_mem _ hc)).1,
          (hd c hc).2⟩, hrest⟩
      rw [ih (cur.1, d.2) hpw2 t]
      rw [Bool.eq_iff_iff]
      simp only [was_active_cons, Bool.or_eq_true, Bool.and_eq_true,
        decide_eq_true_eq]
      have hiff := merged_pair_iff ht hcd.1 hcd.2 hm t
      tauto
    · rw [if_neg hm]
      rw [was_active_cons, ih d hpw' t]
      rfl

theorem mergePass_was_active (tol : Int) (ht : 0 ≤ tol)
    (l : List (Int × Int))
    (hpw : l.Pairwise fun a b => a.1 ≤ b.1 ∧ a.2 ≤ b.2) (t : Int) :
    was_active tol (mergePass tol l) t = was_active tol l t := by
  cases l with
  | nil => rfl
  | cons d rest => exact mergeLoop_was_active tol ht rest d hpw t

/-- C1 (amended).  Compaction preserves every query answer provided the
sorted interval list has non-decreasing ends — i.e. no interval is nested
inside an earlier, longer one — and the tolerance is non-negative.  (The
unrestricted claim is false: see the counterexample.) -/
theorem C1_amended_compact_preserves_query (l : ExitNodeAddress)
    (tol : Int) (t : Int) (ht : 0 ≤ tol)
    (hmono : (l.mergeSort lexLe).Pairwise fun a b => a.2 ≤ b.2) :
    was_active tol (compact tol l) t = was_active tol l t := by
  have hsorted : (l.mergeSort lexLe).Pairwise (fun a b => lexLe a b) :=
    List.sorted_mergeSort lexLe_trans lexLe_total l
  have hP : (l.mergeSort lexLe).Pairwise
      (fun a b => a.1 ≤ b.1 ∧ a.2 ≤ b.2) := by
    refine (hsorted.and hmono).imp ?_
    intro a b hab
    rcases hab with ⟨hx, hy⟩
    simp only [lexLe, Bool.or_eq_true, Bool.and_eq_true,
      decide_eq_true_eq] at hx
    exact ⟨by omega, hy⟩
  unfold compact
  rw [mergePass_was_active tol ht _ hP t]
  exact was_active_perm (List.mergeSort_perm l lexLe) tol t

/-- C1 counterexample: with interval `(10, 20)` nested inside `(0, 1000)`,
the merge pass of `compact` replaces the sorted pair by `(0, 20)`, so the
query at `t = 500` flips from true to false — `compact` does not preserve
query answers on nested intervals. -/
theorem C1_counterexample :
    was_active 24 [((0 : Int), (1000 : Int)), (10, 20)] 500 = true ∧
    was_active 24 (compact 24 [((0 : Int), (1000 : Int)), (10, 20)]) 500 =
      false := by
  have hs : ([((0 : Int), (1000 : Int)), (10, 20)]).mergeSort lexLe =
      [((0 : Int), (1000 : Int)), (10, 20)] :=
    List.mergeSort_of_sorted (by decide)
  constructor
  · decide
  · unfold compact
    rw [hs]
    decide

/-- Witness for the amended C1 on a concrete non-nested list. -/
theorem C1_witness :
    was_active 24 (compact 24 [((0 : Int), (5 : Int)), (40, 50)]) 30 =
      was_active 24 [((0 : Int), (5 : Int)), (40, 50)] 30 :=
  C1_amended_compact_preserves_query [((0 : Int), (5 : Int)), (40, 50)] 24 30
    (by decide)
    (by
      rw [List.mergeSort_of_sorted (by decide)]
      decide)

theorem mergeLoop_head_start (tol : Int) :
    ∀ (rest : List (Int × Int)) (cur : Int × Int),
      ∃ q r', mergeLoop tol cur rest = q :: r' ∧ q.1 = cur.1 := by
  intro rest
  induction rest with
  | nil => intro cur; exact ⟨cur, [], rfl, rfl⟩
  | cons d rest ih =>
    intro cur
    unfold mergeLoop
    by_cases hm : d.1 - tol ≤ cur.2
    · rw [if_pos hm]
      rcases ih (cur.1, d.2) with ⟨q, r', he, hq⟩
      exact ⟨q, r', he, hq⟩
    · rw [if_neg hm]
      exact ⟨cur, mergeLoop tol d rest, rfl, rfl⟩

theorem mergeLoop_wf_gap (tol : Int) (ht : 0 ≤ tol) :
    ∀ (rest : List (Int × Int)) (cur : Int × Int),
      (cur :: rest).Pairwise (fun a b => lexLe a b) →
      (∀ p ∈ cur :: rest, p.1 ≤ p.2) →
      (∀ p ∈ mergeLoop tol cur rest, p.1 ≤ p.2) ∧
        (mergeLoop tol cur rest).Chain' (fun a b => a.2 < b.1 - tol) := by
  intro rest
  induction rest with
  | nil =>
    intro cur hpw hwf
    constructor
    · intro p hp
      simp only [mergeLoop, List.mem_singleton] at hp
      rw [hp]
      exact hwf cur (List.mem_cons_self _ _)
    · simp [mergeLoop]
  | cons d rest ih =>
    intro cur hpw hwf
    rcases List.pairwise_cons.mp hpw with ⟨hcur, hpw'⟩
    have hcd : lexLe cur d := hcur d (List.mem_cons_self _ _)
    have hcd1 : cur.1 ≤ d.1 := by
      simp only [lexLe, Bool.or_eq_true, Bool.and_eq_true,
        decide_eq_true_eq] at hcd
      omega
    unfold mergeLoop
    by_cases hm : d.1 - tol ≤ cur.2
    · rw [if_pos hm]
      apply ih (cur.1, d.2)
      · rw [List.pairwise_cons]
        refine ⟨?_, hpw'.of_cons⟩
        intro c hc
        have hx1 : lexLe cur c := hcur c (List.mem_cons_of_mem _ hc)
        have hx2 : lexLe d c := (List.pairwise_cons.mp hpw').1 c hc
        simp only [lexLe, Bool.or_eq_true, Bool.and_eq_true,
          decide_eq_true_eq] at hx1 hx2 ⊢
        omega
      · intro p hp
        rcases List.mem_cons.mp hp with hp | hp
        · rw [hp]
          have hd2 : d.1 ≤ d.2 :=
            hwf d (List.mem_cons_of_mem _ (List.mem_cons_self _ _))
          show cur.1 ≤ d.2
          omega
        · exact hwf p
            (List.mem_cons_of_mem _ (List.mem_cons_of_mem _ hp))
    · rw [if_neg hm]
      rcases ih d hpw' (fun p hp => hwf p (List.mem_cons_of_mem _ hp))
        with ⟨hwfo, hgapo⟩
      constructor
      · intro p hp
        rcases List.mem_cons.mp hp with hp | hp
        · rw [hp]
          exact hwf cur (List.mem_cons_self _ _)
        · exact hwfo p hp
      · rw [List.chain'_cons']
        refine ⟨?_, hgapo⟩
        intro y hy
        rcases mergeLoop_head_start tol rest d with ⟨q, r', he, hq⟩
        rw [he] at hy
        simp only [List.head?_cons, Option.mem_def,
          Option.some.injEq] at hy
        show cur.2 < y.1 - tol
        rw [← hy, hq]
        omega

theorem mergePass_wf_gap (tol : Int) (ht : 0 ≤ tol)
    (l : List (Int × Int))
    (hpw : l.Pairwise fun a b => lexLe a b)
    (hwf : ∀ p ∈ l, p.1 ≤ p.2) :
    (∀ p ∈ mergePass tol l, p.1 ≤ p.2) ∧
      (mergePass tol l).Chain' (fun a b => a.2 < b.1 - tol) := by
  cases l with
  | nil => exact ⟨fun p hp => absurd hp (List.not_mem_nil p), List.chain'_nil⟩
  | cons d rest => exact mergeLoop_wf_gap tol ht rest d hpw hwf

theorem mergeLoop_of_gap (tol : Int) :
    ∀ (rest : List (Int × Int)) (cur : Int × Int),
      (cur :: rest).Chain' (fun a b => a.2 < b.1 - tol) →
      mergeLoop tol cur rest = cur :: rest := by
  intro rest
  induction rest with
  | nil => intro cur _; rfl
  | cons d rest ih =>
    intro cur h
    rcases List.chain'_cons.mp h with ⟨h1, h2⟩
    unfold mergeLoop
    rw [if_neg (by omega)]
    rw [ih d h2]

theorem mergePass_of_gap (tol : Int) (l : List (Int × Int))
    (h : l.Chain' (fun a b => a.2 < b.1 - tol)) : mergePass tol l = l := by
  cases l with
  | nil => rfl
  | cons d rest => exact mergeLoop_of_gap tol rest d h

theorem pairwise_lexLe_of_gap (tol : Int) (ht : 0 ≤ tol) :
    ∀ l : List (Int × Int), (∀ p ∈ l, p.1 ≤ p.2) →
      l.Chain' (fun a b => a.2 < b.1 - tol) →
      l.Pairwise fun a b => lexLe a b := by
  intro l
  induction l with
  | nil => intro _ _; exact List.Pairwise.nil
  | cons a l ih =>
    intro hwf hch
    rcases List.chain'_cons'.mp hch with ⟨hhead, htail⟩
    have hp' : l.Pairwise (fun a b => lexLe a b) :=
      ih (fun p hp => hwf p (List.mem_cons_of_mem _ hp)) htail
    rw [List.pairwise_cons]
    refine ⟨?_, hp'⟩
    intro c hc
    cases l with
    | nil => cases hc
    | cons b l2 =>
      have hab : a.2 < b.1 - tol := hhead b (by simp)
      have ha : a.1 ≤ a.2 := hwf a (List.mem_cons_self _ _)
      rcases List.mem_cons.mp hc with hc | hc
      · subst hc
        simp only [lexLe, Bool.or_eq_true, Bool.and_eq_true,
          decide_eq_true_eq]
        omega
      · have hbc : lexLe b c := (List.pairwise_cons.mp hp').1 c hc
        simp only [lexLe, Bool.or_eq_true, Bool.and_eq_true,
          decide_eq_true_eq] at hbc ⊢
        omega

/-- C8.  Compaction is idempotent on interval lists whose members are
genuine intervals (`start ≤ end`, which `register`'s
`(published, last_status)` inputs satisfy): after one `compact`, the list is
strictly sorted and every gap exceeds the tolerance, so sorting and merging
again change nothing. -/
theorem C8_compact_idempotent (tol : Int) (l : ExitNodeAddress)
    (ht : 0 ≤ tol) (hwf : ∀ p ∈ l, p.1 ≤ p.2) :
    compact tol (compact tol l) = compact tol l := by
  have hsorted : (l.mergeSort lexLe).Pairwise (fun a b => lexLe a b) :=
    List.sorted_mergeSort lexLe_trans lexLe_total l
  have hwfs : ∀ p ∈ l.mergeSort lexLe, p.1 ≤ p.2 := by
    intro p hp
    exact hwf p (List.mem_mergeSort.mp hp)
  obtain ⟨hwfo, hgapo⟩ := mergePass_wf_gap tol ht _ hsorted hwfs
  have hsorted_o := pairwise_lexLe_of_gap tol ht _ hwfo hgapo
  unfold compact
  rw [List.mergeSort_of_sorted hsorted_o, mergePass_of_gap tol _ hgapo]

/-- Witness for C8 on a concrete well-formed interval list. -/
theorem C8_witness :
    compact 24 (compact 24 [((50 : Int), (60 : Int)), (0, 30), (100, 140)]) =
      compact 24 [((50 : Int), (60 : Int)), (0, 30), (100, 140)] :=
  C8_compact_idempotent 24 [((50 : Int), (60 : Int)), (0, 30), (100, 140)]
    (by decide) (by decide)
